import Mathlib

/-!
Shallow embedding of `src/utils/maybe_done.rs` from `futures-concurrency`.

The Rust source defines `MaybeDone<Fut: Future>`, a three-variant enum
(`Future(Fut)`, `Done(Fut::Output)`, `Gone`) with operations `new`,
`output`, `take` and a `Future` impl whose `poll` drives the wrapped
future.

Embedding choices:
- A wrapped future of state type `σ` producing `α` under scheduling
  contexts of type `Ctx` is modelled as a step function
  `σ → Ctx → σ × PollP α`: one call to the inner `poll` consumes a
  context, mutates the future state in place (returned `σ`), and either
  suspends (`PollP.pending`), finishes (`PollP.ready v`), or unwinds with
  a panic (`PollP.panicOut msg`), modelling Rust unwinding out of the
  inner `poll`.
- Methods taking `Pin<&mut Self>` become state-passing functions
  returning an `MDResult`, which is either a normal return `ok r s'`
  (result plus the slot state on return) or `panicked msg s'` (an
  unwinding panic with message `msg`, leaving the slot in state `s'`).
- `output` takes `Pin<&Self>` (a shared reference) in Rust, so it is a
  pure read in the embedding: it returns only `Option α` and can cause
  no state change by construction.
-/

universe u v w

/-- The three-variant state enum, mirroring Rust's `MaybeDone<Fut>`:
`Future` holds the not-yet-completed future, `Done` holds the output of
the completed future, `Gone` is the empty variant after `take`. -/
inductive MaybeDone (σ : Type u) (α : Type v) where
  | Future : σ → MaybeDone σ α
  | Done : α → MaybeDone σ α
  | Gone : MaybeDone σ α
deriving DecidableEq

/-- Rust's `core::task::Poll`. -/
inductive Poll (β : Type u) where
  | Ready : β → Poll β
  | Pending : Poll β
deriving DecidableEq

/-- Outcome of one call to the wrapped future's own `poll`: suspend,
finish with a value, or unwind with a panic (the failure channel of
Rust's poll, which `MaybeDone::poll` neither catches nor transforms). -/
inductive PollP (α : Type v) where
  | pending : PollP α
  | ready : α → PollP α
  | panicOut : String → PollP α
deriving DecidableEq

/-- Result of a `Pin<&mut Self>` method in the embedding: a normal
return carrying the return value and the slot state on return, or an
unwinding panic carrying the panic message and the slot state left
behind at the moment of the panic. -/
inductive MDResult (β : Type w) (σ : Type u) (α : Type v) where
  | ok : β → MaybeDone σ α → MDResult β σ α
  | panicked : String → MaybeDone σ α → MDResult β σ α
deriving DecidableEq

/-- The panic message of `MaybeDone::poll` on the `Gone` variant. -/
def goneMessage : String := "MaybeDone polled after value taken"

/-- The panic message of the `unreachable!()` branch in `MaybeDone::take`. -/
def unreachableMessage : String := "internal error: entered unreachable code"

/-- Rust's `core::mem::replace`: writes `src` into the referenced
location and returns the previous value; here (old value, new contents). -/
def memReplace {β : Type u} (dest src : β) : β × β := (dest, src)

variable {σ : Type u} {α : Type v} {Ctx : Type w}

namespace MaybeDone

/-- `MaybeDone::new`: create a new instance wrapping the given future. -/
def new (future : σ) : MaybeDone σ α := MaybeDone.Future future

/-- `MaybeDone::output`: returns `Some` of a reference to the output iff
the inner future has completed and `take` has not yet been called.
Takes `Pin<&Self>` in Rust, hence a pure read here. -/
def output : MaybeDone σ α → Option α
  | MaybeDone.Done res => some res
  | _ => none

/-- `MaybeDone::take`: attempt to take the output without driving the
future towards completion. Mirrors the source structure: a gating match
returning `None` on `Future`/`Gone`, then `mem::replace(this, Gone)`,
then a re-match on the replaced-out value with an `unreachable!()`
fallback. -/
def take (s : MaybeDone σ α) : MDResult (Option α) σ α :=
  match s with
  | MaybeDone.Future _ => MDResult.ok none s
  | MaybeDone.Gone => MDResult.ok none s
  | MaybeDone.Done _ =>
    let rep := memReplace s MaybeDone.Gone
    match rep.1 with
    | MaybeDone.Done out => MDResult.ok (some out) rep.2
    | _ => MDResult.panicked unreachableMessage rep.2

/-- `<MaybeDone as Future>::poll`, parametrised by the wrapped future's
own single-step poll function `pollFut`. On `Future a` it forwards the
context to the inner poll (`ready!`: an inner `Pending` returns
`Pending` with the mutated future preserved in place; an inner panic
propagates unchanged); on an inner `Ready res` it sets the slot to
`Done res` and returns `Ready(())`. On `Done` it returns `Ready(())`
immediately without touching `pollFut`. On `Gone` it panics. -/
def poll (pollFut : σ → Ctx → σ × PollP α) :
    MaybeDone σ α → Ctx → MDResult (Poll Unit) σ α
  | MaybeDone.Future a, cx =>
    match pollFut a cx with
    | (a1, PollP.pending) => MDResult.ok Poll.Pending (MaybeDone.Future a1)
    | (_, PollP.ready res) => MDResult.ok (Poll.Ready ()) (MaybeDone.Done res)
    | (a1, PollP.panicOut msg) => MDResult.panicked msg (MaybeDone.Future a1)
  | MaybeDone.Done v, _ => MDResult.ok (Poll.Ready ()) (MaybeDone.Done v)
  | MaybeDone.Gone, _ => MDResult.panicked goneMessage MaybeDone.Gone

end MaybeDone

/-- Run the wrapped future's own poll along a list of contexts,
requiring every step to suspend; returns the future's state after the
suspensions, or `none` if some step finished or panicked instead. Used
to say "the computation is still unfinished after these steps". -/
def stepsPending (pollFut : σ → Ctx → σ × PollP α) : σ → List Ctx → Option σ
  | a, [] => some a
  | a, cx :: rest =>
    match pollFut a cx with
    | (a1, PollP.pending) => stepsPending pollFut a1 rest
    | (_, PollP.ready _) => none
    | (_, PollP.panicOut _) => none

/-- Call `MaybeDone::poll` once per context in the list, threading the
slot state; collects the result of every call and the final state. A
panic aborts the run (no further calls are made). -/
def pollMany (pollFut : σ → Ctx → σ × PollP α) :
    MaybeDone σ α → List Ctx → List (MDResult (Poll Unit) σ α) × MaybeDone σ α
  | s, [] => ([], s)
  | s, cx :: rest =>
    match MaybeDone.poll pollFut s cx with
    | MDResult.ok r s1 =>
      let t := pollMany pollFut s1 rest
      (MDResult.ok r s1 :: t.1, t.2)
    | MDResult.panicked m s1 => ([MDResult.panicked m s1], s1)

/-- One operation of the slot's public protocol: `advance` (poll) with a
scheduling context, `peek` (output), or `take`. -/
inductive Op (Ctx : Type w) where
  | advance : Ctx → Op Ctx
  | peek : Op Ctx
  | take : Op Ctx

/-- The slot state after one protocol operation (for a panicking
operation, the state left behind at the panic). `peek` reads through a
shared reference and cannot change the state. -/
def stepState (pollFut : σ → Ctx → σ × PollP α) (s : MaybeDone σ α) :
    Op Ctx → MaybeDone σ α
  | Op.advance cx =>
    match MaybeDone.poll pollFut s cx with
    | MDResult.ok _ s1 => s1
    | MDResult.panicked _ s1 => s1
  | Op.peek => s
  | Op.take =>
    match MaybeDone.take s with
    | MDResult.ok _ s1 => s1
    | MDResult.panicked _ s1 => s1

/-- The slot state after a sequence of protocol operations. -/
def runOps (pollFut : σ → Ctx → σ × PollP α) (s : MaybeDone σ α) :
    List (Op Ctx) → MaybeDone σ α
  | [] => s
  | op :: rest => runOps pollFut (stepState pollFut s op) rest

/-- A concrete wrapped future for witnesses: from state `n` it suspends
`n` times (counting down) and then finishes with value `42`. -/
def countdownPoll : Nat → Unit → Nat × PollP Nat :=
  fun a _ => if a = 0 then (0, PollP.ready 42) else (a - 1, PollP.pending)

/-- A panic message used by the concrete failing future below. -/
def innerFailureMessage : String := "inner poll failed"

/-- A concrete wrapped future for witnesses whose own advancement always
fails by unwinding with `innerFailureMessage`. -/
def failingPoll : Nat → Unit → Nat × PollP Nat :=
  fun a _ => (a, PollP.panicOut innerFailureMessage)

/-- C2: `poll` returns `Ready` iff the slot is `Done` upon return, and a
normal return of `poll` never leaves the slot in the `Gone` state. -/
theorem poll_ready_iff_done (pollFut : σ → Ctx → σ × PollP α)
    (s : MaybeDone σ α) (cx : Ctx) (r : Poll Unit) (s1 : MaybeDone σ α)
    (h : MaybeDone.poll pollFut s cx = MDResult.ok r s1) :
    (r = Poll.Ready () ↔ ∃ v, s1 = MaybeDone.Done v) ∧ s1 ≠ MaybeDone.Gone := by
  cases s with
  | Future a =>
    rcases hp : pollFut a cx with ⟨a1, p⟩
    cases p <;> simp [MaybeDone.poll, hp] at h <;>
      simp [← h.1, ← h.2]
  | Done v =>
    simp [MaybeDone.poll] at h
    simp [← h.1, ← h.2]
  | Gone => simp [MaybeDone.poll] at h

/-- Witness for C2 at a concrete input: polling a pending countdown
future returns `Pending` and the resulting state is `Future 1`, not
`Done` and not `Gone`. -/
theorem poll_ready_iff_done_witness :
    (Poll.Pending = Poll.Ready () ↔
      ∃ v, (MaybeDone.Future 1 : MaybeDone Nat Nat) = MaybeDone.Done v) ∧
    (MaybeDone.Future 1 : MaybeDone Nat Nat) ≠ MaybeDone.Gone :=
  poll_ready_iff_done countdownPoll (MaybeDone.Future 2) () Poll.Pending
    (MaybeDone.Future 1) (by decide)

/-- C4: `poll` on a `Gone` slot always panics, with the fixed message
"MaybeDone polled after value taken", deterministically for every
scheduling context and every wrapped future; it never returns normally. -/
theorem poll_gone_panics (pollFut : σ → Ctx → σ × PollP α) (cx : Ctx) :
    MaybeDone.poll pollFut MaybeDone.Gone cx
      = MDResult.panicked goneMessage MaybeDone.Gone ∧
    ∀ (r : Poll Unit) (s1 : MaybeDone σ α),
      MaybeDone.poll pollFut MaybeDone.Gone cx ≠ MDResult.ok r s1 := by
  refine ⟨rfl, ?_⟩
  intro r s1 h
  simp [MaybeDone.poll] at h

/-- C5: `poll` on a `Done` slot reports `Ready(())`, changes nothing,
and never re-invokes the wrapped future: the outcome is the same for
every poll function and every scheduling context. -/
theorem poll_done_idempotent (pollFut : σ → Ctx → σ × PollP α)
    (v : α) (cx : Ctx) :
    MaybeDone.poll pollFut (MaybeDone.Done v) cx
      = MDResult.ok (Poll.Ready ()) (MaybeDone.Done v) ∧
    ∀ (pollFut2 : σ → Ctx → σ × PollP α) (cx2 : Ctx),
      MaybeDone.poll pollFut (MaybeDone.Done v) cx
        = MaybeDone.poll pollFut2 (MaybeDone.Done v) cx2 :=
  ⟨rfl, fun _ _ => rfl⟩

/-- C6: `output` returns `some v` exactly when the slot is `Done v`, and
returns `none` exactly when the slot is `Future` or `Gone`; `output`
takes the slot by shared reference (a pure function here), so it can
never change the state however many times it is called. -/
theorem output_characterization (s : MaybeDone σ α) :
    (∀ v : α, MaybeDone.output s = some v ↔ s = MaybeDone.Done v) ∧
    (MaybeDone.output s = none ↔ ∀ v : α, s ≠ MaybeDone.Done v) := by
  cases s <;> simp [MaybeDone.output]

/-- Witness for C6 at a concrete input: on the `Done 7` slot, `output`
returns `some 7`. -/
theorem output_characterization_witness :
    MaybeDone.output (MaybeDone.Done 7 : MaybeDone Nat Nat) = some 7 :=
  ((output_characterization (MaybeDone.Done 7 : MaybeDone Nat Nat)).1 7).mpr rfl

/-- C9: `take` is total — the `unreachable!()` branch is dead code. For
every slot state, `take` returns normally with an `Option`; it never
panics, because the variant checked before the `mem::replace` is
exactly the variant replaced out. -/
theorem take_never_panics (s : MaybeDone σ α) :
    (∃ (r : Option α) (s1 : MaybeDone σ α),
        MaybeDone.take s = MDResult.ok r s1) ∧
    ∀ (m : String) (s1 : MaybeDone σ α),
      MaybeDone.take s ≠ MDResult.panicked m s1 := by
  cases s with
  | Future a => exact ⟨⟨none, MaybeDone.Future a, rfl⟩, fun m s1 h => by simp [MaybeDone.take] at h⟩
  | Done v => exact ⟨⟨some v, MaybeDone.Gone, rfl⟩, fun m s1 h => by simp [MaybeDone.take, memReplace] at h⟩
  | Gone => exact ⟨⟨none, MaybeDone.Gone, rfl⟩, fun m s1 h => by simp [MaybeDone.take] at h⟩

/-- C10: once the slot is no longer `Future`, `poll` ignores the
scheduling context: on a `Done` or `Gone` slot, two `poll` calls with
any two contexts produce identical outcomes (same report, same
resulting state, same panic behaviour). -/
theorem poll_context_independent_after_future (pollFut : σ → Ctx → σ × PollP α)
    (cx1 cx2 : Ctx) :
    (∀ v : α, MaybeDone.poll pollFut (MaybeDone.Done v) cx1
        = MaybeDone.poll pollFut (MaybeDone.Done v) cx2) ∧
    MaybeDone.poll pollFut (MaybeDone.Gone : MaybeDone σ α) cx1
      = MaybeDone.poll pollFut MaybeDone.Gone cx2 :=
  ⟨fun _ => rfl, rfl⟩

/-- C3: exactly-once extraction. On a `Done v` slot, `take` returns
`some v` and transitions the slot to `Gone`, and a second `take` (the
slot now being `Gone`) returns `none` leaving `Gone`; on a `Future` or
`Gone` slot, `take` returns `none` with the state unchanged (it never
calls the future's poll, which `take` does not even receive). Since
`output` is a pure read (C6), intervening peek calls cannot alter the
state threaded between the two takes. -/
theorem take_exactly_once (s : MaybeDone σ α) :
    (∀ v : α, s = MaybeDone.Done v →
        MaybeDone.take s = MDResult.ok (some v) MaybeDone.Gone ∧
        MaybeDone.take (MaybeDone.Gone : MaybeDone σ α)
          = MDResult.ok none MaybeDone.Gone) ∧
    (∀ a : σ, s = MaybeDone.Future a → MaybeDone.take s = MDResult.ok none s) ∧
    (s = MaybeDone.Gone → MaybeDone.take s = MDResult.ok none s) := by
  refine ⟨?_, ?_, ?_⟩
  · intro v hv; subst hv; exact ⟨rfl, rfl⟩
  · intro a ha; subst ha; rfl
  · intro h; subst h; rfl

/-- Witness for C3 at a concrete input: taking from `Done 5` yields
`some 5` and leaves `Gone`; taking again from `Gone` yields `none`. -/
theorem take_exactly_once_witness :
    MaybeDone.take (MaybeDone.Done 5 : MaybeDone Nat Nat)
      = MDResult.ok (some 5) MaybeDone.Gone ∧
    MaybeDone.take (MaybeDone.Gone : MaybeDone Nat Nat)
      = MDResult.ok none MaybeDone.Gone :=
  (take_exactly_once (MaybeDone.Done 5 : MaybeDone Nat Nat)).1 5 rfl

/-- C8: a failure of the wrapped future's own advancement propagates
through `poll`'s return channel unchanged (same message, neither caught
nor transformed), and the slot's `Future → Done` transition does not
occur: the slot is left in the `Future` state. -/
theorem poll_propagates_failure (pollFut : σ → Ctx → σ × PollP α)
    (a a1 : σ) (cx : Ctx) (msg : String)
    (h : pollFut a cx = (a1, PollP.panicOut msg)) :
    MaybeDone.poll pollFut (MaybeDone.Future a) cx
      = MDResult.panicked msg (MaybeDone.Future a1) := by
  simp [MaybeDone.poll, h]

/-- Witness for C8 at a concrete input: polling a slot wrapping the
always-failing future propagates the inner panic message and leaves the
slot in the `Future` state. -/
theorem poll_propagates_failure_witness :
    failingPoll 3 () = (3, PollP.panicOut innerFailureMessage) ∧
    MaybeDone.poll failingPoll (MaybeDone.Future 3) ()
      = MDResult.panicked innerFailureMessage (MaybeDone.Future 3) :=
  ⟨rfl, poll_propagates_failure failingPoll 3 3 () innerFailureMessage rfl⟩

/-- Helper: every protocol operation leaves a `Gone` slot in `Gone`. -/
theorem stepState_gone (pollFut : σ → Ctx → σ × PollP α) (op : Op Ctx) :
    stepState pollFut MaybeDone.Gone op = MaybeDone.Gone := by
  cases op <;> simp [stepState, MaybeDone.poll, MaybeDone.take]

/-- C7: the state machine invariant. No sequence of `advance`, `peek`,
`take` operations ever transitions a slot out of the `Gone` state (once
extracted it is permanently inert), and no single operation ever
transitions a slot directly from `Future` to `Gone`. -/
theorem state_machine_invariant (pollFut : σ → Ctx → σ × PollP α) :
    (∀ ops : List (Op Ctx), runOps pollFut MaybeDone.Gone ops
        = (MaybeDone.Gone : MaybeDone σ α)) ∧
    (∀ (a : σ) (op : Op Ctx),
        stepState pollFut (MaybeDone.Future a) op ≠ MaybeDone.Gone) := by
  constructor
  · intro ops
    induction ops with
    | nil => rfl
    | cons op rest ih => simp [runOps, stepState_gone, ih]
  · intro a op
    cases op with
    | advance cx =>
      rcases hp : pollFut a cx with ⟨a1, p⟩
      cases p <;> simp [stepState, MaybeDone.poll, hp]
    | peek => simp [stepState]
    | take => simp [stepState, MaybeDone.take]

/-- Witness for C7 at a concrete input: a `Gone` slot stays `Gone`
through a peek, a take and an advance, and one `take` on a `Future`
slot does not produce `Gone`. -/
theorem state_machine_invariant_witness :
    runOps countdownPoll MaybeDone.Gone [Op.peek, Op.take, Op.advance ()]
      = MaybeDone.Gone ∧
    stepState countdownPoll (MaybeDone.Future 5) Op.take ≠ MaybeDone.Gone :=
  ⟨(state_machine_invariant countdownPoll).1 [Op.peek, Op.take, Op.advance ()],
   (state_machine_invariant countdownPoll).2 5 Op.take⟩

/-- Helper for C1: while every inner-poll step along `cxs` suspends, the
slot polls as `Pending` at every call, stays in the `Future` state, and
ends wrapping the future state reached by the suspensions. -/
theorem pollMany_pending (pollFut : σ → Ctx → σ × PollP α) :
    ∀ (cxs : List Ctx) (a b : σ), stepsPending pollFut a cxs = some b →
      (∀ r ∈ (pollMany pollFut (MaybeDone.Future a) cxs).1,
          ∃ c, r = MDResult.ok Poll.Pending (MaybeDone.Future c)) ∧
      (pollMany pollFut (MaybeDone.Future a) cxs).2 = MaybeDone.Future b := by
  intro cxs
  induction cxs with
  | nil =>
    intro a b h
    simp [stepsPending] at h
    subst h
    simp [pollMany]
  | cons cx rest ih =>
    intro a b h
    rcases hp : pollFut a cx with ⟨a1, p⟩
    cases p with
    | pending =>
      have h1 : stepsPending pollFut a1 rest = some b := by
        simpa [stepsPending, hp] using h
      obtain ⟨ihmem, ihfinal⟩ := ih a1 b h1
      have hpoll : MaybeDone.poll pollFut (MaybeDone.Future a) cx
          = MDResult.ok Poll.Pending (MaybeDone.Future a1) := by
        simp [MaybeDone.poll, hp]
      refine ⟨?_, ?_⟩
      · intro r hr
        simp only [pollMany, hpoll, List.mem_cons] at hr
        rcases hr with hr | hr
        · exact ⟨a1, hr⟩
        · exact ihmem r hr
      · simp only [pollMany, hpoll]
        exact ihfinal
    | ready v => simp [stepsPending, hp] at h
    | panicOut m => simp [stepsPending, hp] at h

/-- C1: single completion. If the wrapped computation suspends on each
of the first k−1 advancement steps (contexts `cxs`, reaching future
state `b`) and finishes with `v` on the k-th (context `cxk`), then on a
slot freshly built by `new`, the first k−1 `poll` calls all report
`Pending` and leave the slot in the `Future` state, the slot is
`Future b` before the k-th call, and the k-th call transitions it
`Future → Done v` and reports `Ready(())`. -/
theorem single_completion (pollFut : σ → Ctx → σ × PollP α)
    (a0 b af : σ) (cxs : List Ctx) (cxk : Ctx) (v : α)
    (hpend : stepsPending pollFut a0 cxs = some b)
    (hfin : pollFut b cxk = (af, PollP.ready v)) :
    (∀ r ∈ (pollMany pollFut (MaybeDone.new a0) cxs).1,
        ∃ c, r = MDResult.ok Poll.Pending (MaybeDone.Future c)) ∧
    (pollMany pollFut (MaybeDone.new a0) cxs).2 = MaybeDone.Future b ∧
    MaybeDone.poll pollFut (MaybeDone.Future b) cxk
      = MDResult.ok (Poll.Ready ()) (MaybeDone.Done v) := by
  obtain ⟨h1, h2⟩ := pollMany_pending pollFut cxs a0 b hpend
  exact ⟨h1, h2, by simp [MaybeDone.poll, hfin]⟩

/-- Witness for C1 at a concrete input: the countdown future from state
2 suspends twice then finishes with 42, so on a fresh slot the first
two polls are `Pending` leaving `Future` states and the third poll
produces `Done 42` with report `Ready(())`. -/
theorem single_completion_witness :
    stepsPending countdownPoll 2 [(), ()] = some 0 ∧
    countdownPoll 0 () = (0, PollP.ready 42) ∧
    ((∀ r ∈ (pollMany countdownPoll (MaybeDone.new 2) [(), ()]).1,
        ∃ c, r = MDResult.ok Poll.Pending (MaybeDone.Future c)) ∧
     (pollMany countdownPoll (MaybeDone.new 2) [(), ()]).2 = MaybeDone.Future 0 ∧
     MaybeDone.poll countdownPoll (MaybeDone.Future 0) ()
       = MDResult.ok (Poll.Ready ()) (MaybeDone.Done 42)) :=
  ⟨by decide, by decide,
   single_completion countdownPoll 2 0 0 [(), ()] () 42 (by decide) (by decide)⟩

/-- Witness for C4 at a concrete input: polling a `Gone` slot wrapping
the countdown future panics with the fixed message and is not a normal
return. -/
theorem poll_gone_panics_witness :
    MaybeDone.poll countdownPoll MaybeDone.Gone ()
      = MDResult.panicked goneMessage MaybeDone.Gone ∧
    MaybeDone.poll countdownPoll MaybeDone.Gone ()
      ≠ MDResult.ok Poll.Pending MaybeDone.Gone :=
  ⟨(poll_gone_panics countdownPoll ()).1,
   (poll_gone_panics countdownPoll ()).2 Poll.Pending MaybeDone.Gone⟩

/-- Witness for C9 at a concrete input: `take` on `Done 9` returns
normally and does not hit the `unreachable!()` panic. -/
theorem take_never_panics_witness :
    (∃ (r : Option Nat) (s1 : MaybeDone Nat Nat),
        MaybeDone.take (MaybeDone.Done 9 : MaybeDone Nat Nat) = MDResult.ok r s1) ∧
    MaybeDone.take (MaybeDone.Done 9 : MaybeDone Nat Nat)
      ≠ MDResult.panicked unreachableMessage MaybeDone.Gone :=
  ⟨(take_never_panics (MaybeDone.Done 9 : MaybeDone Nat Nat)).1,
   (take_never_panics (MaybeDone.Done 9 : MaybeDone Nat Nat)).2
     unreachableMessage MaybeDone.Gone⟩
